import Mathlib

/- Verification of the humanoid-helper rig-extraction pipeline (src/main.py
and src/util.py) against its natural-language specification.

The Maya scene graph is shallowly embedded: DAG nodes form finite trees
carrying a type tag, the list of connection kinds attached to the node
(cmds.listConnections is only ever used to test presence of a connection of
a given type), and the channel-box state touched by restore_channel and
makeIdentity.  The Maya commands used by the source are translated into
pure functions over this state; Python exceptions (TypeError on iterating
None, AssertionError, IndexError) are modelled with Except.error.

Duplicates (cmds.duplicate) are modelled as structure-preserving copies
whose nodes are identified by the names of their originals; Maya renames
duplicated nodes, but every claim below is stated up to that renaming.
Freezing a channel (cmds.makeIdentity) is modelled per node: the frozen
channels are set to their identity values and the other channels are left
untouched; the compensation the external scene service performs on child
nodes is out of scope (spec section 6 lists freeze as an external op). -/

namespace HumanoidHelper

/-- Test whether a character list starts with the four characters of the
marker "Orig". -/
def startsWithOrig : List Char → Bool
  | 'O' :: 'r' :: 'i' :: 'g' :: _ => true
  | _ => false

/-- Scan helper for containsOrig. -/
def hasOrigAux : List Char → Bool
  | [] => false
  | c :: rest => startsWithOrig (c :: rest) || hasOrigAux rest

/-- Python substring test used by the source as: if 'Orig' not in mesh --
whether the string contains "Orig". -/
def containsOrig (s : String) : Bool :=
  hasOrigAux s.toList

/-- Channel-box state of one DAG node: which attributes are locked, which
are non-keyable, and the translate / rotate / scale / visibility values. -/
structure ChanState where
  locked : List String
  nonkeyable : List String
  t : Int × Int × Int
  r : Int × Int × Int
  s : Int × Int × Int
  vis : Int
  deriving DecidableEq

/-- Payload of one scene node: its (short) name, its node type as reported
by cmds.objectType, the set of connection kinds attached to it (queried by
cmds.listConnections(node, type=k)), and its channel-box state. -/
structure SNode where
  name : String
  ty : String
  conns : List String
  chan : ChanState
  deriving DecidableEq

/-- A scene DAG subtree: a node together with its ordered children.  A
whole scene is a forest (List Tree) of top-level nodes. -/
inductive Tree where
  | node : SNode → List Tree → Tree

def Tree.payload : Tree → SNode
  | .node p _ => p

def Tree.children : Tree → List Tree
  | .node _ cs => cs

def Tree.rootName (t : Tree) : String := t.payload.name

def Tree.rootTy (t : Tree) : String := t.payload.ty

mutual

/-- Names of all nodes of a subtree, root first, depth first. -/
def treeNames : Tree → List String
  | .node p cs => p.name :: forestNames cs

/-- Names of all nodes of a forest, depth first. -/
def forestNames : List Tree → List String
  | [] => []
  | t :: ts => treeNames t ++ forestNames ts

end

mutual

/-- Lookup of the subtree rooted at the first node called n (depth first). -/
def findTreeT (n : String) : Tree → Option Tree
  | .node p cs => if p.name = n then some (.node p cs) else findTreeF n cs

/-- Forest version of findTreeT. -/
def findTreeF (n : String) : List Tree → Option Tree
  | [] => none
  | t :: ts =>
    match findTreeT n t with
    | some r => some r
    | none => findTreeF n ts

end

/-- Payload of the node called n, if present in the scene forest. -/
def findNode (f : List Tree) (n : String) : Option SNode :=
  (findTreeF n f).map Tree.payload

/-- Model of cmds.objectType(n): the type tag of node n.  Querying a node
absent from the scene is an error in Maya; the model returns the empty
string, which is never a real node type, so every isType test fails. -/
def tyOf (f : List Tree) (n : String) : String :=
  match findNode f n with
  | some p => p.ty
  | none => ""

/-- Model of: cmds.listConnections(n, type=c) is non-empty.  The source
only ever tests truthiness of that call. -/
def hasConnB (f : List Tree) (n : String) (c : String) : Bool :=
  match findNode f n with
  | some p => p.conns.contains c
  | none => false

mutual

/-- Name of the parent of the node called n within one subtree. -/
def parentOfT (n : String) : Tree → Option String
  | .node p cs =>
    if cs.any (fun c => c.rootName == n) then some p.name else parentOfF n cs

/-- Forest version of parentOfT. -/
def parentOfF (n : String) : List Tree → Option String
  | [] => none
  | t :: ts =>
    match parentOfT n t with
    | some r => some r
    | none => parentOfF n ts

end

/-- Model of cmds.listRelatives(n, parent=1): the parent of n, or none for
a top-level node. -/
def parentOf (f : List Tree) (n : String) : Option String :=
  parentOfF n f

mutual

/-- Names of the nodes of type tySpec in one subtree (cmds.ls(type=...)). -/
def lsTypeT (tySpec : String) : Tree → List String
  | .node p cs => (if p.ty = tySpec then [p.name] else []) ++ lsTypeF tySpec cs

/-- Forest version of lsTypeT. -/
def lsTypeF (tySpec : String) : List Tree → List String
  | [] => []
  | t :: ts => lsTypeT tySpec t ++ lsTypeF tySpec ts

end

/-- Model of cmds.ls(type=tySpec) over the whole scene forest. -/
def lsType (f : List Tree) (tySpec : String) : List String :=
  lsTypeF tySpec f

mutual

/-- Number of nodes of a subtree. -/
def treeSize : Tree → Nat
  | .node _ cs => 1 + forestSize cs

/-- Number of nodes of a forest. -/
def forestSize : List Tree → Nat
  | [] => 0
  | t :: ts => treeSize t + forestSize ts

end

/-- Model of cmds.listRelatives(n, ad=1): the names of all strict
descendants of node n.  Maya returns None for a childless node; the source
always truth-tests the result first, which the [] case models. -/
def listRelativesAD (f : List Tree) (n : String) : List String :=
  match findTreeF n f with
  | some t => forestNames t.children
  | none => []

/-- Loop of util.get_root_node lines 23-24 (no type filter): follow parent
links to the top of the hierarchy.  The fuel argument bounds the walk; any
fuel at least the length of the ancestor chain gives the true top. -/
def walkToTop (parentF : String → Option String) : Nat → String → String
  | 0, obj => obj
  | fuel + 1, obj =>
    match parentF obj with
    | none => obj
    | some p => walkToTop parentF fuel p

/-- Loop of util.get_root_node lines 26-30 (with a type filter): walk up
the ancestor chain, replacing root by each ancestor whose type matches. -/
def walkTypedUp (typeOf : String → String) (parentF : String → Option String)
    (tySpec : String) : Nat → String → Option String → Option String
  | 0, _, root => root
  | fuel + 1, obj, root =>
    match parentF obj with
    | none => root
    | some p =>
      walkTypedUp typeOf parentF tySpec fuel p
        (if typeOf p = tySpec then some p else root)

/-- Embedding of util.get_root_node (util.py lines 4-32), parameterised by
the scene queries cmds.objectType (typeOf) and cmds.listRelatives(parent=1)
(parentF).  Note the source detail preserved here: in the no-filter branch
root is initialised to obj and the while loop only ever reassigns obj, so
the function returns the input node unchanged; the walk to the top (kept
as the unused value in the let) has no effect on the result. -/
def get_root_node (typeOf : String → String) (parentF : String → Option String)
    (fuel : Nat) (obj : String) (type_specified : Option String) :
    Option String :=
  match type_specified with
  | none =>
    let root := some obj
    let _top := walkToTop parentF fuel obj
    root
  | some tySpec =>
    let root := if typeOf obj = tySpec then some obj else none
    walkTypedUp typeOf parentF tySpec fuel obj root

mutual

/-- Embedding of util.get_hierarchy_of_type (util.py lines 35-54).  The
source branches on listRelatives(root, children=1): a childless node is
collected when its type matches, and a node with children only recurses
into the children, never collecting the node itself. -/
def get_hierarchy_of_type (type_specified : String) : Tree → List String
  | .node p cs =>
    match cs with
    | [] => if p.ty = type_specified then [p.name] else []
    | c :: rest => ghotForest type_specified (c :: rest)

/-- Children loop of get_hierarchy_of_type. -/
def ghotForest (type_specified : String) : List Tree → List String
  | [] => []
  | t :: ts =>
    get_hierarchy_of_type type_specified t ++ ghotForest type_specified ts

end

mutual

/-- Embedding of util.delete_hierarchy_except_type (util.py lines 57-86)
for a single root.  The result is the forest that replaces the root in the
scene: a childless root survives exactly when its type matches; a root
with children has every child re-parented to the root's own parent before
the recursive call when the root's type fails the filter, after which the
root is deleted -- so the processed children are spliced in the root's
place.  A kept root keeps its recursively processed children.  Maya child
ordering after re-parenting (appended at the end of the new parent's list)
is abstracted to in-place splicing; no claim below depends on sibling
order. -/
def delete_hierarchy_except_type (type_specified : String) : Tree → List Tree
  | .node p cs =>
    match cs with
    | [] => if p.ty = type_specified then [Tree.node p []] else []
    | c :: rest =>
      let cs2 := pruneForest type_specified (c :: rest)
      if p.ty = type_specified then [Tree.node p cs2] else cs2

/-- Children loop of delete_hierarchy_except_type. -/
def pruneForest (type_specified : String) : List Tree → List Tree
  | [] => []
  | t :: ts =>
    delete_hierarchy_except_type type_specified t ++ pruneForest type_specified ts

end

mutual

/-- Names of the nodes of one subtree whose type matches the filter; these
are exactly the nodes delete_hierarchy_except_type keeps. -/
def keepNamesT (type_specified : String) : Tree → List String
  | .node p cs =>
    (if p.ty = type_specified then [p.name] else []) ++ keepNamesF type_specified cs

/-- Forest version of keepNamesT. -/
def keepNamesF (type_specified : String) : List Tree → List String
  | [] => []
  | t :: ts => keepNamesT type_specified t ++ keepNamesF type_specified ts

end

mutual

/-- Embedding of util.delete_hierarchy_shape (util.py lines 121-134): every
shape node strictly below the root is deleted (with its subtree).  Which
node types are shapes is a property of the ambient Maya type system, given
here as the list shapeTys. -/
def delete_hierarchy_shape (shapeTys : List String) : Tree → Tree
  | .node p cs => Tree.node p (dhsForest shapeTys cs)

/-- Descendant filter of delete_hierarchy_shape. -/
def dhsForest (shapeTys : List String) : List Tree → List Tree
  | [] => []
  | t :: ts =>
    if shapeTys.contains t.rootTy then dhsForest shapeTys ts
    else delete_hierarchy_shape shapeTys t :: dhsForest shapeTys ts

end

/-- Embedding of util.get_shape_from_transform (util.py lines 137-159).
The shapes argument is the result of cmds.listRelatives(transform,
shapes=1), which is None when the transform has no shape child; the list
comprehension on line 148 then iterates None and raises TypeError before
either flag is consulted.  The two asserts raise AssertionError. -/
def get_shape_from_transform (shapes : Option (List String))
    (enable_result_only : Bool) (check_unique_child : Bool) :
    Except String (List String) :=
  match shapes with
  | none => .error "TypeError: argument of type NoneType is not iterable"
  | some ss =>
    let shapes_result := ss.filter (fun sh => !(containsOrig sh))
    if check_unique_child && (shapes_result.length == 0) then
      .error "AssertionError: no shape node found"
    else if check_unique_child && !(shapes_result.length == 1) then
      .error "AssertionError: multiple shape node found"
    else if enable_result_only then
      .ok shapes_result
    else
      .ok ss

/-- Conversion from a child list to the Maya query result: listRelatives
returns None rather than an empty list when nothing matches. -/
def shapesOptOf (l : List String) : Option (List String) :=
  match l with
  | [] => none
  | x :: xs => some (x :: xs)

/-- Embedding of util.restore_channel's per-attribute call
cmds.setAttr(obj.attr, lock=0, keyable=1). -/
def setAttrUnlockKey (st : ChanState) (a : String) : ChanState :=
  { st with
    locked := st.locked.filter (fun x => x != a)
    nonkeyable := st.nonkeyable.filter (fun x => x != a) }

/-- Attributes visited by restore_channel's nested loop over
['t','r','s'] and ['x','y','z'], in source order. -/
def channelAttrs : List String :=
  ["tx", "ty", "tz", "rx", "ry", "rz", "sx", "sy", "sz"]

/-- Embedding of util.restore_channel (util.py lines 203-218): unlock and
make keyable the nine transform attributes and visibility, then set
visibility to 1.  Only lock/keyable state and visibility change; channel
values are untouched. -/
def restore_channel (st : ChanState) : ChanState :=
  let st1 := (channelAttrs ++ ["visibility"]).foldl setAttrUnlockKey st
  { st1 with vis := 1 }

/-- Embedding of cmds.makeIdentity(jnt, apply=1, t=0, r=1, s=1, n=0)
(main.py line 52): rotation and scale are frozen to their identity values;
translation is not listed, so it keeps its value. -/
def makeIdentityRS (st : ChanState) : ChanState :=
  { st with r := (0, 0, 0), s := (1, 1, 1) }

mutual

/-- Name and channel state of every node of a subtree, root first. -/
def nodeChansT : Tree → List (String × ChanState)
  | .node p cs => (p.name, p.chan) :: nodeChansF cs

/-- Forest version of nodeChansT. -/
def nodeChansF : List Tree → List (String × ChanState)
  | [] => []
  | t :: ts => nodeChansT t ++ nodeChansF ts

end

/-- Accumulating loop of main.extract_clean_bone lines 21-24: collect
get_root_node(jnt, 'joint') for every joint, skipping roots already seen.
For a joint the filtered get_root_node always returns some root (root is
initialised to the joint itself), so the none branch is unreachable; it is
kept as a skip. -/
def jntRootsAux (f : List Tree) : List String → List String → List String
  | [], acc => acc
  | j :: js, acc =>
    match get_root_node (tyOf f) (parentOf f) (forestSize f) j (some "joint") with
    | some r =>
      if acc.contains r then jntRootsAux f js acc
      else jntRootsAux f js (acc ++ [r])
    | none => jntRootsAux f js acc

/-- Deduplicated joint roots of the scene (main.py lines 19-24). -/
def jntRootsOf (f : List Tree) : List String :=
  jntRootsAux f (lsType f "joint") []

/-- Joint chain of a candidate root (main.py lines 29-32): the root
together with all its descendants; when listRelatives(root, ad=1) is falsy
the chain is just the root. -/
def chainOf (f : List Tree) (r : String) : List String :=
  match listRelativesAD f r with
  | [] => [r]
  | d :: ds => r :: d :: ds

/-- Inner loop of main.extract_clean_bone lines 34-37: scan the chain and
stop at the first member with a dagPose connection. -/
def chainHasPose (f : List Tree) : List String → Bool
  | [] => false
  | j :: rest =>
    if hasConnB f j "dagPose" then true else chainHasPose f rest

/-- Selection loop of main.extract_clean_bone lines 27-37: a candidate
root is appended to jnt_bind_roots when its chain contains a member with a
dagPose connection. -/
def bindRootsAux (f : List Tree) : List String → List String
  | [] => []
  | r :: rs =>
    if chainHasPose f (chainOf f r) then r :: bindRootsAux f rs
    else bindRootsAux f rs

/-- Bind roots selected by main.extract_clean_bone. -/
def bindRootsOf (f : List Tree) : List String :=
  bindRootsAux f (jntRootsOf f)

/-- Subtrees placed under clean_joint_group for one bind root (main.py
lines 42-47): duplicate the root's subtree, delete its shapes, then prune
everything that is not a joint.  A root name absent from the scene (never
the case for a computed bind root) contributes nothing. -/
def dupContribution (shapeTys : List String) (f : List Tree) (r : String) :
    List Tree :=
  match findTreeF r f with
  | some t => delete_hierarchy_except_type "joint" (delete_hierarchy_shape shapeTys t)
  | none => []

/-- Duplication loop of main.extract_clean_bone lines 41-47 over all bind
roots: the resulting contents of clean_joint_group. -/
def cleanContentsAux (shapeTys : List String) (f : List Tree) :
    List String → List Tree
  | [] => []
  | r :: rs => dupContribution shapeTys f r ++ cleanContentsAux shapeTys f rs

/-- Contents of clean_joint_group after the duplication loop. -/
def cleanContents (shapeTys : List String) (f : List Tree) : List Tree :=
  cleanContentsAux shapeTys f (bindRootsOf f)

/-- The joints visited by the clean-up loop of main.py line 50:
cmds.listRelatives(clean_joint_group, ad=1), i.e. every node under the
group, with the channel state it has before clean-up. -/
def groupDescPre (shapeTys : List String) (f : List Tree) :
    List (String × ChanState) :=
  nodeChansF (cleanContents shapeTys f)

/-- Embedding of main.extract_clean_bone (main.py lines 17-52), returning
the duplicated joints under clean_joint_group with their final channel
state.  When no chain qualifies the group is empty and
cmds.listRelatives(jnt_grp, ad=1) on line 50 returns None, so the for loop
raises TypeError. -/
def extract_clean_bone (shapeTys : List String) (f : List Tree) :
    Except String (List (String × ChanState)) :=
  if groupDescPre shapeTys f = [] then
    .error "TypeError: NoneType object is not iterable"
  else
    .ok ((groupDescPre shapeTys f).map
      (fun nc => (nc.1, makeIdentityRS (restore_channel nc.2))))

/-- Scene data consumed by main.extract_clean_mesh: the mesh shapes in the
scene (cmds.ls(type='mesh')), the skin clusters (cmds.ls(type=
'skinCluster')), each cluster's geometry list (cmds.skinCluster(c,
query=1, geometry=1)), and for each source mesh the shape children of its
cleaned duplicate (cmds.listRelatives(dup, shapes=1)). -/
structure MeshScene where
  meshes : List String
  clusters : List String
  clusterGeo : String → Option (List String)
  dupShapes : String → List String

/-- Python set construction: deduplicate keeping first occurrences.  The
iteration order of a CPython set is unspecified; the claims below never
depend on which order this fixes. -/
def dedupAppend : List String → List String → List String
  | [], acc => acc
  | x :: xs, acc =>
    if acc.contains x then dedupAppend xs acc else dedupAppend xs (acc ++ [x])

/-- List comprehension of main.py lines 62-64: the geometry list of every
cluster whose geometry query is truthy (neither None nor empty). -/
def geoListsOf (sc : MeshScene) : List String → List (List String)
  | [] => []
  | c :: cs =>
    match sc.clusterGeo c with
    | none => geoListsOf sc cs
    | some [] => geoListsOf sc cs
    | some (g :: gs) => (g :: gs) :: geoListsOf sc cs

/-- Python sum(lists, []): concatenation of a list of lists. -/
def joinLists : List (List String) → List String
  | [] => []
  | l :: ls => l ++ joinLists ls

/-- The result shape recorded for one source mesh on main.py lines 81-82:
the first element of get_shape_from_transform(mesh_dup,
check_unique_child=0), when that call succeeds and is non-empty. -/
def resultShapeHead (sc : MeshScene) (m : String) : Option String :=
  match get_shape_from_transform (shapesOptOf (sc.dupShapes m)) true false with
  | .ok (x :: _) => some x
  | .ok [] => none
  | .error _ => none

/-- Duplication loop of main.extract_clean_mesh lines 72-82: for each
source mesh, duplicate and clean it, then append the duplicate's first
result shape to mesh_targets.  Indexing [0] into an empty result raises
IndexError. -/
def extractLoop (sc : MeshScene) : List String → List String →
    Except String (List String)
  | [], tgts => .ok tgts
  | m :: ms, tgts =>
    match get_shape_from_transform (shapesOptOf (sc.dupShapes m)) true false with
    | .error e => .error e
    | .ok [] => .error "IndexError: list index out of range"
    | .ok (x :: _) => extractLoop sc ms (tgts ++ [x])

/-- Value assigned to the global mesh_sources on main.py lines 56-68: the
result meshes (name does not contain Orig) that appear in some skin
cluster's geometry list -- the set intersection
meshes_bind.intersection(meshes_result) as a deduplicated list. -/
def meshSourcesOf (sc : MeshScene) : List String :=
  let meshes_result := sc.meshes.filter (fun m => !(containsOrig m))
  let meshes_bind := dedupAppend (joinLists (geoListsOf sc sc.clusters)) []
  meshes_bind.filter (fun m => meshes_result.contains m)

/-- Embedding of main.extract_clean_mesh (main.py lines 55-82).  The
module-level state is threaded explicitly: mesh_targets0 is the value of
the global mesh_targets list when the run starts.  The source rebinds
mesh_sources (global declaration plus assignment on lines 67-68) but only
ever appends to mesh_targets, which is never reset -- hence the returned
target list extends mesh_targets0. -/
def extract_clean_mesh (sc : MeshScene) (mesh_targets0 : List String) :
    Except String (List String × List String) :=
  match extractLoop sc (meshSourcesOf sc) mesh_targets0 with
  | .error e => .error e
  | .ok tgts => .ok (meshSourcesOf sc, tgts)

/-- Embedding of the weight-copy step of main.transfer_weight (main.py
lines 94-100): under the length guard the loop pairs mesh_sources[index]
with mesh_targets[index] for every index, i.e. zips the two lists; when
the lengths differ the body is skipped entirely and no pair is copied.
The function returns the list of (source, target) pairs whose weights are
re-associated by cmds.copySkinWeights. -/
def transfer_weight_copy (mesh_sources mesh_targets : List String) :
    List (String × String) :=
  if mesh_sources.length = mesh_targets.length then
    mesh_sources.zip mesh_targets
  else
    []

/-- A mesh transform under clean_mesh_group, with its shape children. -/
structure MeshXf where
  name : String
  shapes : List String
  deriving DecidableEq

/-- List comprehension of main.py lines 103-105: the first shape of every
mesh transform under clean_mesh_group, via get_shape_from_transform with
check_unique_child=0 and an indexing [0] that raises on an empty result. -/
def collectShapes : List MeshXf → Except String (List String)
  | [] => .ok []
  | tr :: rest =>
    match get_shape_from_transform (shapesOptOf tr.shapes) true false with
    | .error e => .error e
    | .ok [] => .error "IndexError: list index out of range"
    | .ok (x :: _) =>
      match collectShapes rest with
      | .error e => .error e
      | .ok xs => .ok (x :: xs)

/-- Model of cmds.polyUniteSkinned(mesh_shapes, ch=0) followed by
cmds.rename(result, 'unite_mesh') (main.py lines 107-108): a single new
skinned mesh combining all the given shapes, renamed unite_mesh. -/
def polyUniteSkinnedRenamed (shapes : List String) : MeshXf :=
  { name := "unite_mesh", shapes := shapes }

/-- Embedding of the merge step of main.transfer_weight (main.py lines
102-111): collect the shapes of the mesh transforms under
clean_mesh_group; when more than one shape exists, unite them, delete the
old group with its contents, and re-create the group holding only the
united mesh; otherwise the group is left unchanged. -/
def transfer_weight_merge (contents : List MeshXf) :
    Except String (List MeshXf) :=
  match collectShapes contents with
  | .error e => .error e
  | .ok mesh_shapes =>
    if 1 < mesh_shapes.length then
      .ok [polyUniteSkinnedRenamed mesh_shapes]
    else
      .ok contents

/-- Default channel state used by concrete example scenes. -/
def chan0 : ChanState := ⟨[], [], (0, 0, 0), (0, 0, 0), (1, 1, 1), 1⟩

theorem forestNames_append (a b : List Tree) :
    forestNames (a ++ b) = forestNames a ++ forestNames b := by
  induction a with
  | nil => simp [forestNames]
  | cons t ts ih => simp [forestNames, ih]

mutual

theorem prune_names_tree (k : String) : (t : Tree) →
    forestNames (delete_hierarchy_except_type k t) = keepNamesT k t
  | .node p cs => by
    cases cs with
    | nil =>
      by_cases h : p.ty = k <;>
        simp [delete_hierarchy_except_type, keepNamesT, keepNamesF, forestNames,
          treeNames, h]
    | cons c rest =>
      have hf := prune_names_forest k (c :: rest)
      by_cases h : p.ty = k <;>
        simp [delete_hierarchy_except_type, keepNamesT, forestNames, treeNames, h, hf]

theorem prune_names_forest (k : String) : (ts : List Tree) →
    forestNames (pruneForest k ts) = keepNamesF k ts
  | [] => by simp [pruneForest, keepNamesF, forestNames]
  | t :: ts => by
    have h1 := prune_names_tree k t
    have h2 := prune_names_forest k ts
    simp [pruneForest, keepNamesF, forestNames_append, h1, h2]

end

mutual

theorem keepNamesT_sub (k : String) : (t : Tree) → ∀ x, x ∈ keepNamesT k t →
    x ∈ treeNames t
  | .node p cs => by
    intro x hx
    rw [keepNamesT] at hx
    rcases List.mem_append.mp hx with h1 | h1
    · rw [treeNames]
      by_cases h : p.ty = k
      · rw [if_pos h] at h1
        exact List.mem_cons.mpr (Or.inl (List.mem_singleton.mp h1))
      · rw [if_neg h] at h1
        cases h1
    · rw [treeNames]
      exact List.mem_cons.mpr (Or.inr (keepNamesF_sub k cs x h1))

theorem keepNamesF_sub (k : String) : (ts : List Tree) → ∀ x, x ∈ keepNamesF k ts →
    x ∈ forestNames ts
  | [] => by intro x hx; rw [keepNamesF] at hx; cases hx
  | t :: ts => by
    intro x hx
    rw [keepNamesF] at hx
    rw [forestNames]
    rcases List.mem_append.mp hx with h1 | h1
    · exact List.mem_append.mpr (Or.inl (keepNamesT_sub k t x h1))
    · exact List.mem_append.mpr (Or.inr (keepNamesF_sub k ts x h1))

end

mutual

theorem dhs_names_tree (shapeTys : List String) : (t : Tree) → ∀ x,
    x ∈ treeNames (delete_hierarchy_shape shapeTys t) → x ∈ treeNames t
  | .node p cs => by
    intro x hx
    rw [delete_hierarchy_shape, treeNames] at hx
    rw [treeNames]
    rcases List.mem_cons.mp hx with h1 | h1
    · exact List.mem_cons.mpr (Or.inl h1)
    · exact List.mem_cons.mpr (Or.inr (dhs_names_forest shapeTys cs x h1))

theorem dhs_names_forest (shapeTys : List String) : (ts : List Tree) → ∀ x,
    x ∈ forestNames (dhsForest shapeTys ts) → x ∈ forestNames ts
  | [] => by intro x hx; rw [dhsForest] at hx; cases hx
  | t :: ts => by
    intro x hx
    rw [dhsForest] at hx
    rw [forestNames]
    by_cases h : shapeTys.contains t.rootTy = true
    · rw [if_pos h] at hx
      exact List.mem_append.mpr (Or.inr (dhs_names_forest shapeTys ts x hx))
    · rw [if_neg h] at hx
      rw [forestNames] at hx
      rcases List.mem_append.mp hx with h1 | h1
      · exact List.mem_append.mpr (Or.inl (dhs_names_tree shapeTys t x h1))
      · exact List.mem_append.mpr (Or.inr (dhs_names_forest shapeTys ts x h1))

end

mutual

theorem findTreeT_rootName (n : String) : (t : Tree) → ∀ r, findTreeT n t = some r →
    r.rootName = n
  | .node p cs => by
    intro r hr
    rw [findTreeT] at hr
    by_cases h : p.name = n
    · rw [if_pos h] at hr
      cases hr
      simp [Tree.rootName, Tree.payload, h]
    · rw [if_neg h] at hr
      exact findTreeF_rootName n cs r hr

theorem findTreeF_rootName (n : String) : (ts : List Tree) → ∀ r,
    findTreeF n ts = some r → r.rootName = n
  | [] => by intro r hr; cases hr
  | t :: ts => by
    intro r hr
    rw [findTreeF] at hr
    cases h : findTreeT n t with
    | some u =>
      rw [h] at hr
      cases hr
      exact findTreeT_rootName n t r h
    | none =>
      rw [h] at hr
      exact findTreeF_rootName n ts r hr

end

mutual

theorem findTreeT_mem (n : String) : (t : Tree) → ∀ r, findTreeT n t = some r →
    n ∈ treeNames t
  | .node p cs => by
    intro r hr
    rw [findTreeT] at hr
    rw [treeNames]
    by_cases h : p.name = n
    · exact List.mem_cons.mpr (Or.inl h.symm)
    · rw [if_neg h] at hr
      exact List.mem_cons.mpr (Or.inr (findTreeF_mem n cs r hr))

theorem findTreeF_mem (n : String) : (ts : List Tree) → ∀ r, findTreeF n ts = some r →
    n ∈ forestNames ts
  | [] => by intro r hr; cases hr
  | t :: ts => by
    intro r hr
    rw [findTreeF] at hr
    rw [forestNames]
    cases h : findTreeT n t with
    | some u =>
      exact List.mem_append.mpr (Or.inl (findTreeT_mem n t u h))
    | none =>
      rw [h] at hr
      exact List.mem_append.mpr (Or.inr (findTreeF_mem n ts r hr))

end

theorem hasConnB_mem (f : List Tree) (n c : String) (h : hasConnB f n c = true) :
    n ∈ forestNames f := by
  unfold hasConnB findNode at h
  cases hf : findTreeF n f with
  | none => rw [hf] at h; simp at h
  | some t => exact findTreeF_mem n f t hf

theorem chainHasPose_exists (f : List Tree) : (c : List String) →
    chainHasPose f c = true → ∃ j, j ∈ c ∧ hasConnB f j "dagPose" = true
  | [] => by intro h; cases h
  | j :: rest => by
    intro h
    by_cases hj : hasConnB f j "dagPose" = true
    · exact ⟨j, List.mem_cons_self j rest, hj⟩
    · rw [chainHasPose, if_neg hj] at h
      obtain ⟨x, hx1, hx2⟩ := chainHasPose_exists f rest h
      exact ⟨x, List.mem_cons_of_mem _ hx1, hx2⟩

theorem bindRootsAux_mem (f : List Tree) (l : List String) (r : String) :
    r ∈ bindRootsAux f l ↔ (r ∈ l ∧ chainHasPose f (chainOf f r) = true) := by
  induction l with
  | nil => simp [bindRootsAux]
  | cons x xs ih =>
    by_cases hx : chainHasPose f (chainOf f x) = true
    · rw [bindRootsAux, if_pos hx]
      constructor
      · intro h
        rcases List.mem_cons.mp h with rfl | h2
        · exact ⟨List.mem_cons_self _ _, hx⟩
        · have h3 := ih.mp h2
          exact ⟨List.mem_cons_of_mem _ h3.1, h3.2⟩
      · rintro ⟨h1, h2⟩
        rcases List.mem_cons.mp h1 with rfl | h3
        · exact List.mem_cons_self _ _
        · exact List.mem_cons_of_mem _ (ih.mpr ⟨h3, h2⟩)
    · rw [bindRootsAux, if_neg hx]
      constructor
      · intro h
        have h3 := ih.mp h
        exact ⟨List.mem_cons_of_mem _ h3.1, h3.2⟩
      · rintro ⟨h1, h2⟩
        rcases List.mem_cons.mp h1 with rfl | h3
        · exact absurd h2 hx
        · exact ih.mpr ⟨h3, h2⟩

theorem cleanContentsAux_mem (shapeTys : List String) (f : List Tree)
    (l : List String) (x : String)
    (hx : x ∈ forestNames (cleanContentsAux shapeTys f l)) :
    ∃ r, r ∈ l ∧ x ∈ forestNames (dupContribution shapeTys f r) := by
  induction l with
  | nil => rw [cleanContentsAux] at hx; cases hx
  | cons a as ih =>
    rw [cleanContentsAux, forestNames_append] at hx
    rcases List.mem_append.mp hx with h | h
    · exact ⟨a, List.mem_cons_self _ _, h⟩
    · obtain ⟨r, hr1, hr2⟩ := ih h
      exact ⟨r, List.mem_cons_of_mem _ hr1, hr2⟩

theorem dupContribution_mem (shapeTys : List String) (f : List Tree) (r x : String)
    (hx : x ∈ forestNames (dupContribution shapeTys f r)) : x ∈ chainOf f r := by
  unfold dupContribution at hx
  cases hf : findTreeF r f with
  | none => rw [hf] at hx; cases hx
  | some t =>
    rw [hf] at hx
    rw [prune_names_tree] at hx
    have h1 : x ∈ treeNames (delete_hierarchy_shape shapeTys t) :=
      keepNamesT_sub _ _ x hx
    have h2 : x ∈ treeNames t := dhs_names_tree shapeTys t x h1
    have hr : t.rootName = r := findTreeF_rootName r f t hf
    cases t with
    | node p cs =>
      rw [treeNames] at h2
      have hpr : p.name = r := by simpa [Tree.rootName, Tree.payload] using hr
      unfold chainOf listRelativesAD
      rw [hf]
      dsimp only [Tree.children]
      cases hcs : forestNames cs with
      | nil =>
        rw [hcs] at h2
        rcases List.mem_cons.mp h2 with h3 | h3
        · exact List.mem_singleton.mpr (hpr ▸ h3)
        · cases h3
      | cons d ds =>
        rw [hcs] at h2
        rcases List.mem_cons.mp h2 with h3 | h3
        · exact List.mem_cons.mpr (Or.inl (hpr ▸ h3))
        · exact List.mem_cons.mpr (Or.inr h3)

theorem setAttrUnlockKey_self (st : ChanState) (a : String) :
    a ∉ (setAttrUnlockKey st a).locked ∧ a ∉ (setAttrUnlockKey st a).nonkeyable := by
  constructor <;> simp [setAttrUnlockKey, List.mem_filter]

theorem setAttrUnlockKey_mono (st : ChanState) (a b : String)
    (h : a ∉ st.locked ∧ a ∉ st.nonkeyable) :
    a ∉ (setAttrUnlockKey st b).locked ∧ a ∉ (setAttrUnlockKey st b).nonkeyable := by
  constructor <;>
    · simp only [setAttrUnlockKey, List.mem_filter]
      rintro ⟨hmem, _⟩
      first
      | exact h.1 hmem
      | exact h.2 hmem

theorem foldl_unlock_mono (l : List String) (st : ChanState) (a : String)
    (h : a ∉ st.locked ∧ a ∉ st.nonkeyable) :
    a ∉ (l.foldl setAttrUnlockKey st).locked ∧
      a ∉ (l.foldl setAttrUnlockKey st).nonkeyable := by
  induction l generalizing st with
  | nil => simpa using h
  | cons b bs ih =>
    rw [List.foldl_cons]
    exact ih _ (setAttrUnlockKey_mono st a b h)

theorem foldl_unlock_clears (l : List String) (st : ChanState) (a : String)
    (ha : a ∈ l) :
    a ∉ (l.foldl setAttrUnlockKey st).locked ∧
      a ∉ (l.foldl setAttrUnlockKey st).nonkeyable := by
  induction l generalizing st with
  | nil => cases ha
  | cons b bs ih =>
    rw [List.foldl_cons]
    rcases List.mem_cons.mp ha with rfl | h
    · exact foldl_unlock_mono bs _ a (setAttrUnlockKey_self st a)
    · exact ih _ h

theorem foldl_unlock_t (l : List String) (st : ChanState) :
    (l.foldl setAttrUnlockKey st).t = st.t := by
  induction l generalizing st with
  | nil => rfl
  | cons b bs ih =>
    rw [List.foldl_cons, ih]
    rfl

theorem restore_channel_clears (st : ChanState) (a : String) (ha : a ∈ channelAttrs) :
    a ∉ (restore_channel st).locked ∧ a ∉ (restore_channel st).nonkeyable := by
  unfold restore_channel
  have h := foldl_unlock_clears (channelAttrs ++ ["visibility"]) st a
    (List.mem_append_left _ ha)
  simpa using h

theorem restore_channel_t (st : ChanState) : (restore_channel st).t = st.t := by
  unfold restore_channel
  simpa using foldl_unlock_t (channelAttrs ++ ["visibility"]) st

theorem cleanup_props (st : ChanState) :
    (∀ a, a ∈ channelAttrs →
      a ∉ (makeIdentityRS (restore_channel st)).locked ∧
        a ∉ (makeIdentityRS (restore_channel st)).nonkeyable) ∧
    (makeIdentityRS (restore_channel st)).r = (0, 0, 0) ∧
    (makeIdentityRS (restore_channel st)).s = (1, 1, 1) ∧
    (makeIdentityRS (restore_channel st)).t = st.t := by
  refine ⟨fun a ha => ?_, rfl, rfl, ?_⟩
  · have h := restore_channel_clears st a ha
    simpa [makeIdentityRS] using h
  · have h := restore_channel_t st
    simpa [makeIdentityRS] using h

theorem extractLoop_ok (sc : MeshScene) (ms : List String) (tgts out : List String)
    (h : extractLoop sc ms tgts = Except.ok out) :
    ∃ news, out = tgts ++ news ∧ news.length = ms.length ∧
      ∀ i (h1 : i < ms.length) (h2 : i < news.length),
        resultShapeHead sc (ms.get ⟨i, h1⟩) = some (news.get ⟨i, h2⟩) := by
  induction ms generalizing tgts with
  | nil =>
    rw [extractLoop] at h
    cases h
    exact ⟨[], by simp, rfl, fun i h1 h2 => absurd h1 (Nat.not_lt_zero i)⟩
  | cons m rest ih =>
    rw [extractLoop] at h
    cases hg : get_shape_from_transform (shapesOptOf (sc.dupShapes m)) true false with
    | error e => rw [hg] at h; cases h
    | ok ss =>
      rw [hg] at h
      cases ss with
      | nil => cases h
      | cons x xs =>
        obtain ⟨news, hcat, hlen, hidx⟩ := ih (tgts ++ [x]) h
        refine ⟨x :: news, ?_, by simp [hlen], ?_⟩
        · rw [hcat, List.append_assoc]
          rfl
        · intro i h1 h2
          cases i with
          | zero => simp [resultShapeHead, hg, List.get]
          | succ j =>
            have h3 := hidx j (Nat.lt_of_succ_lt_succ h1) (Nat.lt_of_succ_lt_succ h2)
            simpa [List.get] using h3

theorem collectShapes_length (l : List MeshXf) (ys : List String)
    (h : collectShapes l = Except.ok ys) : ys.length = l.length := by
  induction l generalizing ys with
  | nil =>
    rw [collectShapes] at h
    cases h
    rfl
  | cons tr rest ih =>
    rw [collectShapes] at h
    cases hg : get_shape_from_transform (shapesOptOf tr.shapes) true false with
    | error e => rw [hg] at h; cases h
    | ok ss =>
      rw [hg] at h
      cases ss with
      | nil => cases h
      | cons x xs =>
        cases hr : collectShapes rest with
        | error e => rw [hr] at h; cases h
        | ok zs =>
          rw [hr] at h
          cases h
          simp [ih zs hr]

/-- Concrete scene for the C1 witness: one chain hip-knee whose knee has a
dagPose connection, and one chain legRoot-foot with no connection. -/
def fC1 : List Tree :=
  [.node ⟨"hip", "joint", [], chan0⟩
    [.node ⟨"knee", "joint", ["dagPose"], chan0⟩ []],
   .node ⟨"legRoot", "joint", [], chan0⟩
    [.node ⟨"foot", "joint", [], chan0⟩ []]]

/-- C1: a candidate joint-chain root is selected as a bind-root by
extract_clean_bone exactly when some member of its chain (the root
together with all its descendants) has a dagPose pose-snapshot
connection; moreover every node duplicated into clean_joint_group lies in
the chain of some selected bind-root, so a chain with zero connections is
excluded entirely and contributes no duplicated joints. -/
theorem c1_bind_root_selection (shapeTys : List String) (f : List Tree) (r : String) :
    (r ∈ bindRootsOf f ↔ r ∈ jntRootsOf f ∧ chainHasPose f (chainOf f r) = true) ∧
    (∀ n, n ∈ forestNames (cleanContents shapeTys f) →
      ∃ rb, rb ∈ bindRootsOf f ∧ n ∈ chainOf f rb) := by
  constructor
  · exact bindRootsAux_mem f (jntRootsOf f) r
  · intro n hn
    obtain ⟨rb, hrb1, hrb2⟩ := cleanContentsAux_mem shapeTys f (bindRootsOf f) n hn
    exact ⟨rb, hrb1, dupContribution_mem shapeTys f rb n hrb2⟩

/-- Witness for C1: in fC1 the chain with the dagPose connection is
selected and the chain without one is not. -/
theorem c1_bind_root_selection_witness :
    "hip" ∈ bindRootsOf fC1 ∧ "legRoot" ∉ bindRootsOf fC1 :=
  ⟨(c1_bind_root_selection [] fC1 "hip").1.mpr ⟨by decide, by decide⟩,
   fun h =>
    absurd ((c1_bind_root_selection [] fC1 "legRoot").1.mp h).2 (by decide)⟩

/-- The type oracle for the C2 evaluation: every node is a transform. -/
def tyC2 : String → String := fun _ => "transform"

/-- The parent map for the C2 evaluation: node b sits under node a, which
is a top-level node. -/
def parC2 : String → Option String := fun n => if n = "b" then some "a" else none

/-- C2: evaluation showing the no-filter branch of get_root_node returns
the input node while the parent walk reaches the true top.  In the source
the while loop of lines 22-24 advances obj but never reassigns root, so
the absolute root a is computed and discarded, and b is returned. -/
theorem c2_get_root_node_no_filter_eval :
    get_root_node tyC2 parC2 2 "b" none = some "b" ∧
    walkToTop parC2 2 "b" = "a" ∧ ("b" : String) ≠ "a" :=
  ⟨rfl, rfl, by decide⟩

/-- Concrete input for C3: a joint root with one joint child. -/
def tC3 : Tree :=
  .node ⟨"j0", "joint", [], chan0⟩ [.node ⟨"j1", "joint", [], chan0⟩ []]

/-- C3: evaluation showing get_hierarchy_of_type drops the matching root
j0 because it has children, returning only the leaf j1, contrary to its
own docstring (all children including root). -/
theorem c3_interior_nodes_dropped :
    get_hierarchy_of_type "joint" tC3 = ["j1"] ∧
    tC3.rootTy = "joint" ∧
    "j0" ∉ get_hierarchy_of_type "joint" tC3 ∧
    "j0" ∈ treeNames tC3 :=
  ⟨rfl, rfl, by decide, by decide⟩

/-- C4 (amended): extract_clean_mesh rebinds mesh_sources to a freshly
computed list but only appends to mesh_targets, so on success the
resulting target list is the starting target list extended by exactly one
result shape per source, aligned positionally with the fresh sources. -/
theorem c4_targets_extend_prior_state (sc : MeshScene)
    (mesh_targets0 s2 t2 : List String)
    (h : extract_clean_mesh sc mesh_targets0 = Except.ok (s2, t2)) :
    ∃ news, t2 = mesh_targets0 ++ news ∧ news.length = s2.length ∧
      ∀ i (h1 : i < s2.length) (h2 : i < news.length),
        resultShapeHead sc (s2.get ⟨i, h1⟩) = some (news.get ⟨i, h2⟩) := by
  unfold extract_clean_mesh at h
  cases hl : extractLoop sc (meshSourcesOf sc) mesh_targets0 with
  | error e => rw [hl] at h; cases h
  | ok tgts =>
    rw [hl] at h
    cases h
    exact extractLoop_ok sc (meshSourcesOf sc) mesh_targets0 _ hl

/-- Scene for the C4 counterexample and witness: one bound result mesh
body whose cleaned duplicate has the single shape bodyShape. -/
def scC4 : MeshScene :=
  ⟨["body"], ["cluster1"],
   fun c => if c = "cluster1" then some ["body"] else none,
   fun m => if m = "body" then ["bodyShape"] else []⟩

/-- Counterexample for C4 as stated: a second pipeline run in the same
process starts with mesh_targets still holding the first run's entry
(the source never resets it), after which the two lists have different
lengths, so the claimed reset plus alignment after every run fails. -/
theorem c4_second_run_misaligned :
    extract_clean_mesh scC4 [] = Except.ok (["body"], ["bodyShape"]) ∧
    extract_clean_mesh scC4 ["bodyShape"] =
      Except.ok (["body"], ["bodyShape", "bodyShape"]) ∧
    (["bodyShape", "bodyShape"] : List String).length ≠
      (["body"] : List String).length :=
  ⟨rfl, rfl, by decide⟩

/-- Witness for the amended C4 on a first run from empty state. -/
theorem c4_targets_extend_prior_state_witness :
    extract_clean_mesh scC4 [] = Except.ok (["body"], ["bodyShape"]) ∧
    ∃ news, (["bodyShape"] : List String) = [] ++ news ∧
      news.length = (["body"] : List String).length ∧
      ∀ i (h1 : i < (["body"] : List String).length) (h2 : i < news.length),
        resultShapeHead scC4 ((["body"] : List String).get ⟨i, h1⟩) =
          some (news.get ⟨i, h2⟩) :=
  ⟨rfl, c4_targets_extend_prior_state scC4 [] ["body"] ["bodyShape"] rfl⟩

/-- C5: when the source and target lists have different lengths the
weight-copy step of transfer_weight re-associates nothing (and, being a
plain skipped branch, raises nothing); when the lengths agree every
positionally aligned pair is re-associated. -/
theorem c5_transfer_guard (mesh_sources mesh_targets : List String) :
    (mesh_sources.length ≠ mesh_targets.length →
      transfer_weight_copy mesh_sources mesh_targets = []) ∧
    (mesh_sources.length = mesh_targets.length →
      transfer_weight_copy mesh_sources mesh_targets =
        mesh_sources.zip mesh_targets) := by
  constructor
  · intro h
    rw [transfer_weight_copy, if_neg h]
  · intro h
    rw [transfer_weight_copy, if_pos h]

/-- Witness for C5: a mismatched pair of lists copies nothing, a matched
pair copies the aligned pair. -/
theorem c5_transfer_guard_witness :
    transfer_weight_copy ["srcA"] [] = [] ∧
    transfer_weight_copy ["srcA"] ["tgtA"] = [("srcA", "tgtA")] :=
  ⟨(c5_transfer_guard ["srcA"] []).1 (by decide),
   ((c5_transfer_guard ["srcA"] ["tgtA"]).2 rfl).trans (by decide)⟩

/-- C6: when extract_clean_bone succeeds, every duplicated joint under
clean_joint_group keeps its name and its original translation, has
rotation frozen to zero and scale frozen to one, and has every transform
channel unlocked and keyable again. -/
theorem c6_joint_cleanup (shapeTys : List String) (f : List Tree)
    (out : List (String × ChanState))
    (h : extract_clean_bone shapeTys f = Except.ok out) :
    out.length = (groupDescPre shapeTys f).length ∧
    ∀ i (h1 : i < out.length) (h2 : i < (groupDescPre shapeTys f).length),
      (out.get ⟨i, h1⟩).1 = ((groupDescPre shapeTys f).get ⟨i, h2⟩).1 ∧
      (∀ a, a ∈ channelAttrs →
        a ∉ (out.get ⟨i, h1⟩).2.locked ∧ a ∉ (out.get ⟨i, h1⟩).2.nonkeyable) ∧
      (out.get ⟨i, h1⟩).2.r = (0, 0, 0) ∧
      (out.get ⟨i, h1⟩).2.s = (1, 1, 1) ∧
      (out.get ⟨i, h1⟩).2.t = ((groupDescPre shapeTys f).get ⟨i, h2⟩).2.t := by
  unfold extract_clean_bone at h
  by_cases hp : groupDescPre shapeTys f = []
  · rw [if_pos hp] at h
    cases h
  · rw [if_neg hp] at h
    cases h
    constructor
    · simp
    · intro i h1 h2
      have hget : ((groupDescPre shapeTys f).map
          (fun nc => (nc.1, makeIdentityRS (restore_channel nc.2)))).get ⟨i, h1⟩ =
          (((groupDescPre shapeTys f).get ⟨i, h2⟩).1,
            makeIdentityRS (restore_channel
              (((groupDescPre shapeTys f).get ⟨i, h2⟩).2))) := by
        simp [List.get_eq_getElem, List.getElem_map]
      rw [hget]
      obtain ⟨ha, hr, hs, ht⟩ :=
        cleanup_props (((groupDescPre shapeTys f).get ⟨i, h2⟩).2)
      exact ⟨rfl, ha, hr, hs, ht⟩

/-- Scene for the C6 witness: a bound hip-knee chain with locked and
non-keyable channels and non-identity channel values. -/
def fC6 : List Tree :=
  [.node ⟨"hip", "joint", ["dagPose"],
      ⟨["tx", "rx"], ["sy"], (1, 2, 3), (4, 5, 6), (2, 2, 2), 0⟩⟩
    [.node ⟨"knee", "joint", [],
      ⟨["sz"], ["ty"], (7, 8, 9), (1, 1, 1), (3, 3, 3), 0⟩⟩ []]]

/-- Cleaned joints computed by extract_clean_bone on fC6. -/
def outC6 : List (String × ChanState) :=
  [("hip", ⟨[], [], (1, 2, 3), (0, 0, 0), (1, 1, 1), 1⟩),
   ("knee", ⟨[], [], (7, 8, 9), (0, 0, 0), (1, 1, 1), 1⟩)]

/-- Witness for C6 on the concrete scene fC6. -/
theorem c6_joint_cleanup_witness :
    extract_clean_bone ["mesh"] fC6 = Except.ok outC6 ∧
    outC6.length = (groupDescPre ["mesh"] fC6).length :=
  ⟨rfl, (c6_joint_cleanup ["mesh"] fC6 outC6 rfl).1⟩

/-- C7: when more than one target mesh exists under clean_mesh_group the
merge step of transfer_weight replaces the group contents by the single
united mesh renamed unite_mesh; when exactly one exists the group is left
unchanged with that mesh as sole output. -/
theorem c7_merge_step (contents : List MeshXf) (out : List MeshXf)
    (h : transfer_weight_merge contents = Except.ok out) :
    (1 < contents.length →
      ∃ sh, out = [{ name := "unite_mesh", shapes := sh }]) ∧
    (contents.length = 1 → out = contents) := by
  unfold transfer_weight_merge at h
  cases hc : collectShapes contents with
  | error e => rw [hc] at h; cases h
  | ok mesh_shapes =>
    rw [hc] at h
    dsimp only at h
    have hlen := collectShapes_length contents mesh_shapes hc
    by_cases hgt : 1 < mesh_shapes.length
    · rw [if_pos hgt] at h
      cases h
      refine ⟨fun _ => ⟨mesh_shapes, rfl⟩, fun h1 => absurd hgt (by omega)⟩
    · rw [if_neg hgt] at h
      cases h
      exact ⟨fun h1 => absurd h1 (by omega), fun _ => rfl⟩

/-- Contents of clean_mesh_group for the C7 witness: two skinned meshes. -/
def contentsC7 : List MeshXf := [⟨"mA", ["mAShape"]⟩, ⟨"mB", ["mBShape"]⟩]

/-- Witness for C7: two target meshes merge into the single unite_mesh. -/
theorem c7_merge_step_witness :
    transfer_weight_merge contentsC7 =
      Except.ok [⟨"unite_mesh", ["mAShape", "mBShape"]⟩] ∧
    ∃ sh, ([⟨"unite_mesh", ["mAShape", "mBShape"]⟩] : List MeshXf) =
      [{ name := "unite_mesh", shapes := sh }] :=
  ⟨rfl, (c7_merge_step contentsC7 [⟨"unite_mesh", ["mAShape", "mBShape"]⟩] rfl).1
    (by decide)⟩

/-- Reachability from the original root after pruning: some tree of the
forest delete_hierarchy_except_type leaves behind is still rooted at the
original root and contains the node x. -/
def reachAfterB (k : String) (t : Tree) (x : String) : Bool :=
  (delete_hierarchy_except_type k t).any
    (fun t2 => t2.rootName == t.rootName && (treeNames t2).contains x)

/-- Concrete input for the C8 counterexample: a transform root holding a
joint child. -/
def tC8 : Tree :=
  .node ⟨"grp", "transform", [], chan0⟩ [.node ⟨"j", "joint", [], chan0⟩ []]

/-- Counterexample for C8 as stated: when the root itself fails the keep
filter it is excised and its kept child is re-parented above it, so the
kept joint j, reachable from the root grp before pruning, is no longer
reachable from grp afterwards. -/
theorem c8_root_excised_counterexample :
    "j" ∈ keepNamesT "joint" tC8 ∧ "j" ∈ treeNames tC8 ∧
    reachAfterB "joint" tC8 "j" = false :=
  ⟨by decide, by decide, by decide⟩

/-- C8 (amended): for a root that itself satisfies the keep filter,
delete_hierarchy_except_type preserves reachability -- every node whose
type satisfies the filter is still reachable from the root afterwards,
because a deleted node's children are re-parented to its own parent. -/
theorem c8_prune_preserves_reachability (k : String) (t : Tree)
    (hroot : t.rootTy = k) :
    ∀ x, x ∈ keepNamesT k t → reachAfterB k t x = true := by
  intro x hx
  cases t with
  | node p cs =>
    have hp : p.ty = k := by simpa [Tree.rootTy, Tree.payload] using hroot
    cases cs with
    | nil =>
      rw [keepNamesT, keepNamesF, if_pos hp] at hx
      have hxp : x = p.name := by simpa using hx
      subst hxp
      rw [reachAfterB, delete_hierarchy_except_type, if_pos hp]
      simp [treeNames, forestNames, Tree.rootName, Tree.payload, List.elem_iff]
    | cons c rest =>
      rw [keepNamesT, if_pos hp] at hx
      rw [reachAfterB, delete_hierarchy_except_type, if_pos hp]
      simp only [List.any_cons, List.any_nil, Bool.or_false, Bool.and_eq_true,
        beq_iff_eq]
      refine ⟨rfl, ?_⟩
      rw [List.elem_iff]
      rw [treeNames]
      rcases List.mem_append.mp hx with h1 | h1
      · exact List.mem_cons.mpr (Or.inl (List.mem_singleton.mp h1))
      · rw [prune_names_forest]
        exact List.mem_cons.mpr (Or.inr h1)

/-- Tree for the C8 witness: joint a over transform b over joint c. -/
def tC8w : Tree :=
  .node ⟨"a", "joint", [], chan0⟩
    [.node ⟨"b", "transform", [], chan0⟩ [.node ⟨"c", "joint", [], chan0⟩ []]]

/-- Witness for the amended C8: the deep joint c stays reachable from the
kept root a after the intermediate transform b is excised. -/
theorem c8_prune_preserves_reachability_witness :
    reachAfterB "joint" tC8w "c" = true :=
  c8_prune_preserves_reachability "joint" tC8w rfl "c" (by decide)

/-- C9: a transform with zero shape children makes get_shape_from_transform
fail for every combination of the two flags, because
cmds.listRelatives(transform, shapes=1) returns None and the list
comprehension iterates it before either flag is consulted. -/
theorem c9_shapeless_transform_fails (enable_result_only check_unique_child : Bool) :
    get_shape_from_transform (shapesOptOf []) enable_result_only check_unique_child =
      Except.error "TypeError: argument of type NoneType is not iterable" := rfl

/-- C10: in a scene where no node has a dagPose connection, no chain
qualifies as a bind-root, clean_joint_group stays empty, and
extract_clean_bone raises in its clean-up phase (iterating the None that
cmds.listRelatives returns for the empty group) instead of returning the
empty group. -/
theorem c10_no_pose_connection_raises (shapeTys : List String) (f : List Tree)
    (h : (forestNames f).all (fun n => !(hasConnB f n "dagPose")) = true) :
    extract_clean_bone shapeTys f =
      Except.error "TypeError: NoneType object is not iterable" := by
  have hno : ∀ c, chainHasPose f c = false := by
    intro c
    cases hc : chainHasPose f c
    · rfl
    · obtain ⟨j, hj1, hj2⟩ := chainHasPose_exists f c hc
      have hmem := hasConnB_mem f j "dagPose" hj2
      have hall := List.all_eq_true.mp h j hmem
      exact absurd hj2 (by simpa using hall)
  have hbind : ∀ l, bindRootsAux f l = [] := by
    intro l
    induction l with
    | nil => rfl
    | cons a as ih =>
      rw [bindRootsAux, hno]
      simpa using ih
  have hgd : groupDescPre shapeTys f = [] := by
    unfold groupDescPre cleanContents bindRootsOf
    rw [hbind]
    rfl
  unfold extract_clean_bone
  rw [if_pos hgd]

/-- Scene for the C10 witness: a single joint with no connections. -/
def fC10 : List Tree := [.node ⟨"solo", "joint", [], chan0⟩ []]

/-- Witness for C10 on the concrete scene fC10. -/
theorem c10_no_pose_connection_raises_witness :
    extract_clean_bone [] fC10 =
      Except.error "TypeError: NoneType object is not iterable" :=
  c10_no_pose_connection_raises [] fC10 (by decide)

end HumanoidHelper
